import Mathlib

set_option maxHeartbeats 2000000

namespace JiraMcp

/-! String helpers modelling the JavaScript string operations used by the
source (`String.prototype.match` against the issue-key patterns,
`String.prototype.includes`, `toLowerCase`, `split`). -/
def isUp (c : Char) : Bool := 'A' ≤ c && c ≤ 'Z'

def isDig (c : Char) : Bool := '0' ≤ c && c ≤ '9'

/-- One attempt of the regex `[A-Z]+-\d+` anchored at the head of the
character list: a maximal run of uppercase letters, a hyphen, a maximal run
of digits.  Returns the matched text and the remaining characters. -/
def matchKey (l : List Char) : Option (String × List Char) :=
  let up := l.takeWhile isUp
  let rest := l.dropWhile isUp
  if up.isEmpty then none
  else
    match rest with
    | '-' :: r2 =>
      let ds := r2.takeWhile isDig
      let r3 := r2.dropWhile isDig
      if ds.isEmpty then none
      else some (String.mk (up ++ '-' :: ds), r3)
    | _ => none

/-- All non-overlapping matches of `[A-Z]+-\d+`, scanning left to right as a
JavaScript global regex does: after a match continue at its end, after a
failed attempt advance one character.  The fuel starts at the input length;
every step consumes at least one character, so it never runs out. -/
def findKeysAux : Nat → List Char → List String
  | 0, _ => []
  | _, [] => []
  | fuel + 1, c :: rest =>
    if isUp c then
      match matchKey (c :: rest) with
      | some (k, r) => k :: findKeysAux fuel r
      | none => findKeysAux fuel rest
    else findKeysAux fuel rest

/-- `text.match(/[A-Z]+-\d+/g) || []` from the source. -/
def findKeys (s : String) : List String := findKeysAux s.data.length s.data

def startsWithChars : List Char → List Char → Bool
  | [], _ => true
  | _ :: _, [] => false
  | a :: as, b :: bs => a == b && startsWithChars as bs

def containsAux (sub : List Char) : List Char → Bool
  | [] => sub.isEmpty
  | c :: rest => startsWithChars sub (c :: rest) || containsAux sub rest

/-- `s.includes(sub)` from JavaScript. -/
def strContains (s sub : String) : Bool := containsAux sub.data s.data

/-- First match of `\/browse\/([A-Z]+-\d+)` in a URL: find the literal
`/browse/` followed immediately by an issue key, scanning left to right,
and return the captured key. -/
def browseMatchAux : Nat → List Char → Option String
  | 0, _ => none
  | _, [] => none
  | fuel + 1, c :: rest =>
    if startsWithChars "/browse/".data (c :: rest) then
      match matchKey ((c :: rest).drop 8) with
      | some (k, _) => some k
      | none => browseMatchAux fuel rest
    else browseMatchAux fuel rest

/-- `url.match(/\/browse\/([A-Z]+-\d+)/)` — the captured group, or `none`. -/
def browseMatch (url : String) : Option String :=
  browseMatchAux url.data.length url.data

/-- `a || b` on two possibly-absent JavaScript strings (the empty string is
falsy). -/
def jsOrStr (a b : Option String) : Option String :=
  match a with
  | some s => if s = "" then b else some s
  | none => b

/-! The typed document layer: well-formed Atlassian Document Format trees as
the source's extractors traverse them.  A node carries a `type` tag, an
optional `text` payload, an optional `attrs.url`, and an optional child
list; all of these may be absent, matching the dynamic payloads the
extractors receive. -/
structure NodeAttrs where
  url : Option String := none
deriving DecidableEq

inductive Node where
  | mk (type : Option String) (text : Option String) (attrs : Option NodeAttrs)
       (content : Option (List Node))

/-- An entry of `CleanJiraIssue["relatedIssues"]`: a mention pushed by
`extractIssueMentions` or a link entry built by `cleanIssue`. -/
structure RelatedIssue where
  key : String
  type : String
  source : String
  commentId : Option String := none
  summary : Option String := none
  relationship : Option String := none
deriving DecidableEq

/-! `extractTextContent` (src/services/jira-api.ts, lines 151–165): a text
node contributes `node.text || ""`; any other node with a child list is
recursed into; everything else contributes the empty string; the pieces are
joined with no separator. -/
mutual

def extractTextContent : List Node → String
  | [] => ""
  | n :: rest => nodeText n ++ extractTextContent rest

def nodeText : Node → String
  | .mk ty tx _ ct =>
    if ty == some "text" then tx.getD ""
    else
      match ct with
      | some cs => extractTextContent cs
      | none => ""

end

/-! `extractIssueMentions` (lines 79–118).  `processNode` pushes a mention
for an `inlineCard` node whose `attrs.url` matches `/browse/KEY`, one
mention per regex match in a text node's payload, and recurses into any
child list; the collected list is then deduplicated through a JavaScript
`Map` keyed by `key`. -/
def mkMention (key source : String) (commentId : Option String) : RelatedIssue :=
  { key := key, type := "mention", source := source, commentId := commentId }

mutual

def processNode (source : String) (commentId : Option String) : Node → List RelatedIssue
  | .mk ty tx attrs ct =>
    (if ty == some "inlineCard" then
      match attrs with
      | some a =>
        match a.url with
        | some u =>
          if u = "" then []
          else
            match browseMatch u with
            | some k => [mkMention k source commentId]
            | none => []
        | none => []
      | none => []
    else []) ++
    (if ty == some "text" then
      match tx with
      | some t =>
        if t = "" then []
        else (findKeys t).map (fun k => mkMention k source commentId)
      | none => []
    else []) ++
    (match ct with
     | some cs => processNodes source commentId cs
     | none => [])

def processNodes (source : String) (commentId : Option String) : List Node → List RelatedIssue
  | [] => []
  | n :: rest => processNode source commentId n ++ processNodes source commentId rest

end

/-- One `Map.set` step of `new Map(mentions.map(m => [m.key, m]))`: an
existing key keeps its position but its value is overwritten; a new key is
appended. -/
def insertMap (acc : List RelatedIssue) (m : RelatedIssue) : List RelatedIssue :=
  if acc.any (fun x => x.key == m.key) then
    acc.map (fun x => if x.key == m.key then m else x)
  else acc ++ [m]

/-- `[...new Map(mentions.map(m => [m.key, m])).values()]`. -/
def jsMapDedup (ms : List RelatedIssue) : List RelatedIssue := ms.foldl insertMap []

def extractIssueMentions (content : List Node) (source : String)
    (commentId : Option String := none) : List RelatedIssue :=
  jsMapDedup (processNodes source commentId content)

/-! Specification-side helpers for the deduplication contract: first
occurrences of a key list, and the last element of a mention list carrying
a given key. -/
def dedupFirst : List String → List String
  | [] => []
  | k :: rest => k :: (dedupFirst rest).filter (fun x => x != k)

def lastWithKey (k : String) (L : List RelatedIssue) : Option RelatedIssue :=
  (L.filter (fun x => x.key == k)).getLast?

def c1Content : List Node :=
  [Node.mk (some "text") (some "AB-1 CD-2 AB-1") none none]

/-! C4: specification-side description of the Document Text Extractor —
collect the `text` payloads of all text leaves in depth-first document
order, then concatenate them with no separator. -/
def concatAll : List String → String
  | [] => ""
  | s :: rest => s ++ concatAll rest

mutual

def textLeaves : List Node → List String
  | [] => []
  | n :: rest => nodeLeaves n ++ textLeaves rest

def nodeLeaves : Node → List String
  | .mk ty tx _ ct =>
    if ty == some "text" then [tx.getD ""]
    else
      match ct with
      | some cs => textLeaves cs
      | none => []

end

/-! The dynamic document layer: document content as the JavaScript runtime
sees it, including degenerate shapes — `null`/`undefined` elements,
non-array `content` values, truthy non-string `text`/`url` values.  A
result of `.error ()` models a thrown `TypeError` (property access on
`null`/`undefined`, or calling `forEach`/`match` on a value that lacks
it). -/
inductive JSPrim where
  | jsNull
  | jsUndef
  | jsStr (s : String)
  | jsNum (n : Int)
  | jsBool (b : Bool)

def primTruthy : JSPrim → Bool
  | .jsNull => false
  | .jsUndef => false
  | .jsStr s => s != ""
  | .jsNum n => n != 0
  | .jsBool b => b

def primToString : JSPrim → String
  | .jsNull => "null"
  | .jsUndef => "undefined"
  | .jsStr s => s
  | .jsNum n => toString n
  | .jsBool b => if b then "true" else "false"

/-- `x || ""` on a possibly-absent JavaScript value. -/
def jsOrEmpty (tx : Option JSPrim) : JSPrim :=
  match tx with
  | some p => if primTruthy p then p else .jsStr ""
  | none => .jsStr ""

mutual

inductive DNode where
  | bad
  | node (type : Option String) (text : Option JSPrim) (attrsUrl : Option JSPrim)
         (content : Option DContent)

inductive DContent where
  | arr (elems : List DNode)
  | nonArr (truthy : Bool)

end

def dcTruthy : DContent → Bool
  | .arr _ => true
  | .nonArr t => t

/-! `extractTextContent` on dynamic input.  The source guards with
`Array.isArray` (non-array input yields `""`), but a `null`/`undefined`
element throws at the `node.type` access. -/
mutual

def extractTextContentD : DContent → Except Unit String
  | .nonArr _ => .ok ""
  | .arr elems => textListD elems

def textListD : List DNode → Except Unit String
  | [] => .ok ""
  | n :: rest => do
    let s ← textNodeD n
    let t ← textListD rest
    pure (s ++ t)

def textNodeD : DNode → Except Unit String
  | .bad => .error ()
  | .node ty tx _ ct =>
    if ty == some "text" then .ok (primToString (jsOrEmpty tx))
    else
      match ct with
      | some c => if dcTruthy c then extractTextContentD c else .ok ""
      | none => .ok ""

end

/-! `extractIssueMentions` on dynamic input.  There is no array guard:
`content.forEach` throws on a non-array, `node.type` throws on a
`null`/`undefined` element, `url.match`/`text.match` throw on truthy
non-strings, and `node.content.forEach` throws on a truthy non-array. -/
def inlineCardMentionsD (source : String) (commentId : Option String)
    (ty : Option String) (url : Option JSPrim) : Except Unit (List RelatedIssue) :=
  if ty == some "inlineCard" then
    match url with
    | some u =>
      if primTruthy u then
        match u with
        | .jsStr su =>
          Except.ok
            (match browseMatch su with
             | some k => [mkMention k source commentId]
             | none => [])
        | _ => .error ()
      else .ok []
    | none => .ok []
  else .ok []

def textMentionsD (source : String) (commentId : Option String)
    (ty : Option String) (tx : Option JSPrim) : Except Unit (List RelatedIssue) :=
  if ty == some "text" then
    match tx with
    | some t =>
      if primTruthy t then
        match t with
        | .jsStr st =>
          Except.ok ((findKeys st).map (fun k => mkMention k source commentId))
        | _ => .error ()
      else .ok []
    | none => .ok []
  else .ok []

mutual

def extractIssueMentionsD (content : DContent) (source : String)
    (commentId : Option String) : Except Unit (List RelatedIssue) :=
  match content with
  | .nonArr _ => .error ()
  | .arr elems => do
    let ms ← mentionListD source commentId elems
    pure (jsMapDedup ms)

def mentionListD (source : String) (commentId : Option String) :
    List DNode → Except Unit (List RelatedIssue)
  | [] => .ok []
  | n :: rest => do
    let a ← mentionNodeD source commentId n
    let b ← mentionListD source commentId rest
    pure (a ++ b)

def mentionNodeD (source : String) (commentId : Option String) :
    DNode → Except Unit (List RelatedIssue)
  | .bad => .error ()
  | .node ty tx url ct => do
    let m1 ← inlineCardMentionsD source commentId ty url
    let m2 ← textMentionsD source commentId ty tx
    let m3 ←
      match ct with
      | some c =>
        if dcTruthy c then
          match c with
          | .arr es => mentionListD source commentId es
          | .nonArr _ => .error ()
        else Except.ok ([] : List RelatedIssue)
      | none => Except.ok ([] : List RelatedIssue)
    pure (m1 ++ m2 ++ m3)

end

/-! Well-formed dynamic nodes: every element is an object, truthy
`text`/`url` values are strings, truthy `content` values are arrays. -/
def wfPrimField : Option JSPrim → Bool
  | some (.jsStr _) => true
  | some p => !primTruthy p
  | none => true

mutual

def wfNode : DNode → Bool
  | .bad => false
  | .node _ tx url ct =>
    wfPrimField tx && wfPrimField url &&
    (match ct with
     | some (.arr es) => wfList es
     | some (.nonArr t) => !t
     | none => true)

def wfList : List DNode → Bool
  | [] => true
  | n :: rest => wfNode n && wfList rest

end

def c5Nodes : List DNode :=
  [DNode.node (some "paragraph") none none
    (some (.arr [DNode.node (some "text") (some (.jsStr "AB-1 CD-2")) none none]))]

/-! Raw issue/comment payload shapes as consumed by `cleanIssue` and
`cleanComment` (well-formed collaborator responses; optional fields model
absent JSON properties). -/
structure StatusObj where
  name : Option String := none
deriving DecidableEq

structure DescriptionObj where
  content : Option (List Node) := none

structure LinkedIssueFields where
  summary : Option String := none
deriving DecidableEq

structure LinkedIssue where
  key : String
  fields : Option LinkedIssueFields := none
deriving DecidableEq

structure IssueLinkType where
  inward : Option String := none
  outward : Option String := none
deriving DecidableEq

structure IssueLink where
  inwardIssue : Option LinkedIssue := none
  outwardIssue : Option LinkedIssue := none
  type : IssueLinkType
deriving DecidableEq

structure IssueRefRaw where
  id : String
  key : String
  fields : Option LinkedIssueFields := none
deriving DecidableEq

structure IssueFields where
  summary : Option String := none
  status : Option StatusObj := none
  created : Option String := none
  updated : Option String := none
  description : Option DescriptionObj := none
  customfield_10016 : Option Int := none
  issuelinks : Option (List IssueLink) := none
  parent : Option IssueRefRaw := none
  customfield_10014 : Option String := none
  subtasks : Option (List IssueRefRaw) := none

structure Issue where
  id : String
  key : String
  fields : Option IssueFields := none

structure CommentBody where
  content : Option (List Node) := none

structure CommentAuthor where
  displayName : Option String := none
deriving DecidableEq

structure RawComment where
  id : String
  body : Option CommentBody := none
  author : Option CommentAuthor := none
  created : String
  updated : String

structure CommentsPayload where
  comments : List RawComment

/-! Normalized output shapes (`CleanJiraIssue`, `CleanComment`). -/
structure IssueRef where
  id : String
  key : String
  summary : Option String := none
deriving DecidableEq

structure EpicLink where
  id : String
  key : String
  summary : Option String := none
deriving DecidableEq

structure CleanComment where
  id : String
  body : String
  author : Option String := none
  created : String
  updated : String
  mentions : List RelatedIssue
deriving DecidableEq

structure CleanJiraIssue where
  id : String
  key : String
  summary : Option String := none
  status : Option String := none
  created : Option String := none
  updated : Option String := none
  description : String
  relatedIssues : List RelatedIssue
  storyPoints : Option Int := none
  parent : Option IssueRef := none
  epicLink : Option EpicLink := none
  children : Option (List IssueRef) := none
  comments : Option (List CleanComment) := none
deriving DecidableEq

def descContent (issue : Issue) : Option (List Node) :=
  (issue.fields.bind IssueFields.description).bind DescriptionObj.content

/-- One `issuelinks` entry mapped to a relationship entry
(`cleanIssue`, lines 199–209): the linked record is
`link.inwardIssue || link.outwardIssue`, the verb is
`link.type.inward || link.type.outward`.  A link with neither side — on
which the source would throw — is given a placeholder key. -/
def linkEntry (link : IssueLink) : RelatedIssue :=
  let rel := jsOrStr link.type.inward link.type.outward
  match link.inwardIssue with
  | some li =>
    { key := li.key, type := "link", source := "description",
      summary := li.fields.bind LinkedIssueFields.summary, relationship := rel }
  | none =>
    match link.outwardIssue with
    | some li =>
      { key := li.key, type := "link", source := "description",
        summary := li.fields.bind LinkedIssueFields.summary, relationship := rel }
    | none =>
      { key := "", type := "link", source := "description",
        summary := none, relationship := rel }

/-- The `{id, key, summary}` projection used for `parent` and `subtasks`
entries in `cleanIssue`. -/
def issueRefOf (r : IssueRefRaw) : IssueRef :=
  { id := r.id, key := r.key,
    summary := r.fields.bind LinkedIssueFields.summary }

/-- `cleanIssue` (lines 167–242). -/
def cleanIssue (issue : Issue) : CleanJiraIssue :=
  let description :=
    match descContent issue with
    | some c => extractTextContent c
    | none => ""
  let base : CleanJiraIssue :=
    { id := issue.id
      key := issue.key
      summary := issue.fields.bind IssueFields.summary
      status := (issue.fields.bind IssueFields.status).bind StatusObj.name
      created := issue.fields.bind IssueFields.created
      updated := issue.fields.bind IssueFields.updated
      description := description
      relatedIssues := [] }
  let base :=
    match issue.fields.bind IssueFields.customfield_10016 with
    | some sp => { base with storyPoints := some sp }
    | none => base
  let base :=
    match descContent issue with
    | some c =>
      let mentions := extractIssueMentions c "description"
      if mentions.length > 0 then { base with relatedIssues := mentions }
      else base
    | none => base
  let base :=
    match issue.fields.bind IssueFields.issuelinks with
    | some links =>
      if links.length > 0 then
        { base with relatedIssues := base.relatedIssues ++ links.map linkEntry }
      else base
    | none => base
  let base :=
    match issue.fields.bind IssueFields.parent with
    | some p =>
      { base with parent := some (issueRefOf p) }
    | none => base
  let base :=
    match issue.fields.bind IssueFields.customfield_10014 with
    | some v =>
      if v = "" then base
      else { base with epicLink := some { id := v, key := v, summary := none } }
    | none => base
  let base :=
    match issue.fields.bind IssueFields.subtasks with
    | some sts =>
      if sts.length > 0 then
        { base with children := some (sts.map issueRefOf) }
      else base
    | none => base
  base

/-- `cleanComment` (lines 120–146). -/
def cleanComment (comment : RawComment) : CleanComment :=
  { id := comment.id
    body :=
      match comment.body.bind CommentBody.content with
      | some c => extractTextContent c
      | none => ""
    author := comment.author.bind CommentAuthor.displayName
    created := comment.created
    updated := comment.updated
    mentions :=
      match comment.body.bind CommentBody.content with
      | some c => extractIssueMentions c "comment" (some comment.id)
      | none => [] }

def c3Issue : Issue :=
  { id := "1", key := "AC-1",
    fields := some
      { description := some
          { content := [Node.mk (some "text") (some "AA-1 BB-2") none none] }
        issuelinks := some
          [{ outwardIssue := some { key := "CC-3" },
             type := { outward := some "blocks" } }] } }

/-! `handleFetchError` (lines 24–73): the message of the `Error` thrown for
a non-ok transport response.  `body = none` models a response whose JSON
body could not be parsed (`errorData` stays `{}`). -/
structure ErrBody where
  errorMessages : Option (List String) := none
  message : Option String := none
  errorMessage : Option String := none

structure HttpResponse where
  ok : Bool
  status : Nat
  statusText : String
  body : Option ErrBody := none

def jsonQuote (s : String) : String := "\"" ++ s ++ "\""

def renderStrList (l : List String) : String :=
  "[" ++ String.intercalate "," (l.map jsonQuote) ++ "]"

/-- `JSON.stringify(errorData, null, 2)`, flattened: present fields only,
`"\x7b\x7d"` for the empty object. -/
def detailsStr : Option ErrBody → String
  | none => "\x7b\x7d"
  | some b =>
    let fields :=
      (match b.errorMessages with
       | some l => [jsonQuote "errorMessages" ++ ": " ++ renderStrList l]
       | none => []) ++
      (match b.message with
       | some m => [jsonQuote "message" ++ ": " ++ jsonQuote m]
       | none => []) ++
      (match b.errorMessage with
       | some m => [jsonQuote "errorMessage" ++ ": " ++ jsonQuote m]
       | none => [])
    "\x7b" ++ String.intercalate ", " fields ++ "\x7d"

def categoryOf (status : Nat) : String :=
  if status == 401 then " [AUTHENTICATION_ERROR]"
  else if status == 403 then " [PERMISSION_ERROR]"
  else if status == 404 then " [NOT_FOUND_ERROR]"
  else if status == 400 then " [VALIDATION_ERROR]"
  else if status ≥ 500 then " [SERVER_ERROR]"
  else ""

def msgFallback2 (b : ErrBody) (st : String) : String :=
  match b.errorMessage with
  | some m => if m = "" then st else m
  | none => st

def msgFallback (b : ErrBody) (st : String) : String :=
  match b.message with
  | some m => if m = "" then msgFallback2 b st else m
  | none => msgFallback2 b st

def messageOf (r : HttpResponse) : String :=
  match r.body with
  | none => r.statusText
  | some b =>
    match b.errorMessages with
    | some msgs =>
      if msgs.length > 0 then String.intercalate "; " msgs
      else msgFallback b r.statusText
    | none => msgFallback b r.statusText

def handleFetchError (r : HttpResponse) : String :=
  if !r.ok then
    let message := messageOf r
    let errorMessage := if message = "" then "" else ": " ++ message
    "JIRA API Error" ++ categoryOf r.status ++ errorMessage ++ " (Status: "
      ++ toString r.status ++ ")\nDetails: " ++ detailsStr r.body
  else "Unknown error occurred during fetch operation."

/-! The aggregate fetchers.  Network collaborators are passed in as
resolved `Except` results: an `.error e` argument models a sub-fetch whose
promise rejected with an `Error` whose message is `e`. -/
structure EpicPayload where
  fields : Option LinkedIssueFields := none

structure SearchPayload where
  total : Nat
  issues : List Issue

structure SearchIssuesResponse where
  total : Nat
  issues : List CleanJiraIssue

/-- `searchIssues` (lines 257–284), applied to the raw search payload. -/
def searchIssuesClean (data : SearchPayload) : SearchIssuesResponse :=
  { total := data.total, issues := data.issues.map cleanIssue }

/-- The marker `getIssueWithComments` greps the caught error message for. -/
def st404 : String := "(Status: 404)"

/-- The assembly shared by `getIssueWithComments` (lines 368–378) and the
per-issue body of `getEpicChildren` (lines 314–328): clean the issue, clean
the comments, append the flattened comment mentions to the relationship
list, attach the comments. -/
def assembleIssue (d : Issue) (c : CommentsPayload) : CleanJiraIssue :=
  let issue := cleanIssue d
  let comments := c.comments.map cleanComment
  let commentMentions := (comments.map CleanComment.mentions).flatten
  { issue with
    relatedIssues := issue.relatedIssues ++ commentMentions,
    comments := some comments }

/-- The `catch` of `getIssueWithComments` (lines 360–366): an error whose
message contains `(Status: 404)` becomes `Issue not found: <id>`, any other
error is rethrown unchanged. -/
def translate404 (issueId e : String) : Except String CleanJiraIssue :=
  if strContains e st404 then .error ("Issue not found: " ++ issueId)
  else .error e

/-- `getIssueWithComments` (lines 335–392).  The two concurrent sub-fetch
results are joined; a rejection of either lands in the shared catch (the
issue fetch checked first, the canonical order of the `Promise.all`
tuple).  The epic-summary follow-up (lines 380–389) is best-effort. -/
def getIssueWithComments (issueId : String) (issueRes : Except String Issue)
    (commentsRes : Except String CommentsPayload)
    (epicFetch : String → Except String EpicPayload) :
    Except String CleanJiraIssue :=
  match issueRes with
  | .error e => translate404 issueId e
  | .ok d =>
    match commentsRes with
    | .error e => translate404 issueId e
    | .ok c =>
      let issue := assembleIssue d c
      match issue.epicLink with
      | some el =>
        match epicFetch el.key with
        | .ok ed =>
          let el' := { el with summary := ed.fields.bind LinkedIssueFields.summary }
          .ok { issue with epicLink := some el' }
        | .error _ => .ok issue
      | none => .ok issue

/-- `Promise.all` over per-element sub-fetches, joined in list order. -/
def promiseAll {α β : Type} : List α → (α → Except String β) → Except String (List β)
  | [], _ => .ok []
  | a :: rest, f => do
    let b ← f a
    let bs ← promiseAll rest f
    pure (b :: bs)

/-- `getEpicChildren` (lines 286–333): search for the epic's issues, fetch
every issue's comments, assemble each issue exactly as the single-record
aggregate does. -/
def getEpicChildren (searchRes : Except String SearchPayload)
    (commentsFetch : String → Except String CommentsPayload) :
    Except String (List CleanJiraIssue) := do
  let data ← searchRes
  promiseAll data.issues (fun issue => do
    let commentsData ← commentsFetch issue.key
    pure (assembleIssue issue commentsData))

def c7Issue : Issue :=
  { id := "7", key := "K-7",
    fields := some { customfield_10014 := some "EP-9" } }

def c7Comments : CommentsPayload := { comments := [] }

def c6Resp : HttpResponse :=
  { ok := false, status := 404, statusText := "Not Found", body := none }

def c6Issue : Issue := { id := "1", key := "KEY-1" }

/-! `findStoryPointsField` (lines 626–694) and `updateStoryPoints`
(lines 699–719).  The three collaborator calls — creation metadata, the
probe search (whose JQL names the project and issue type), and the probe
record fetch — are passed in as resolved `Except` results. -/
structure MetaField where
  name : Option String := none

structure MetaIssueType where
  name : String
  fields : Option (List (String × MetaField)) := none

structure MetaProject where
  issuetypes : Option (List MetaIssueType) := none

structure CreateMeta where
  projects : Option (List MetaProject) := none

structure ProbeIssue where
  names : Option (List (String × String)) := none

def storyPointsFieldNames : List String :=
  ["story points", "storypoints", "story point estimate", "estimate", "points"]

def commonStoryPointsFields : List String :=
  ["customfield_10002", "customfield_10016", "customfield_10020",
   "customfield_10026", "customfield_10004", "customfield_10008"]

/-- `storyPointsFieldNames.some(name => fieldName.includes(name))` applied
to one `Object.entries` pair, with `fieldName = field.name?.toLowerCase()
|| ""`. -/
def metaFieldMatches (p : String × MetaField) : Bool :=
  let fieldName := (p.2.name.map String.toLower).getD ""
  storyPointsFieldNames.any (fun n => strContains fieldName n)

/-- The `for … of Object.entries(storyIssueType.fields)` loop
(lines 650–657): first matching field wins. -/
def scanFieldList : List (String × MetaField) → Option String
  | [] => none
  | p :: rest => if metaFieldMatches p then some p.1 else scanFieldList rest

/-- Step 1 of the heuristic (lines 632–659): first project of the creation
metadata, the issue type whose name matches case-insensitively, then the
field-list scan. -/
def scanMetaFields (issueType : String) (createMeta : CreateMeta) : Option String :=
  match createMeta.projects with
  | some (project :: _) =>
    match (project.issuetypes.getD []).find?
        (fun it2 => it2.name.toLower == issueType.toLower) with
    | some storyIssueType =>
      match storyIssueType.fields with
      | some flds => scanFieldList flds
      | none => none
    | none => none
  | _ => none

/-- The `for … of commonStoryPointsFields` loop (lines 679–686). -/
def probeFieldLoop (names : List (String × String)) : List String → Option String
  | [] => none
  | fieldId :: rest =>
    match names.lookup fieldId with
    | some nm =>
      if nm = "" then probeFieldLoop names rest
      else
        let fieldName := nm.toLower
        if strContains fieldName "story" && strContains fieldName "point" then
          some fieldId
        else probeFieldLoop names rest
    | none => probeFieldLoop names rest

def probeFields (names : Option (List (String × String))) : Option String :=
  match names with
  | some ns => probeFieldLoop ns commonStoryPointsFields
  | none => none

/-- The body of `findStoryPointsField`'s `try` block. -/
def findSPFCore (projectKey issueType : String)
    (metaRes : Except String CreateMeta)
    (searchRes : Except String SearchPayload)
    (probeRes : String → Except String ProbeIssue) :
    Except String (Option String) := do
  let createMeta ← metaRes
  match scanMetaFields issueType createMeta with
  | some fid => pure (some fid)
  | none =>
    let searchData ← searchRes
    let searchResult := searchIssuesClean searchData
    match searchResult.issues with
    | [] => pure none
    | first :: _ => do
      let fullIssue ← probeRes first.key
      pure (probeFields fullIssue.names)

/-- `findStoryPointsField` (lines 626–694): the whole `try` is wrapped in a
catch-all that logs and returns `null`. -/
def findStoryPointsField (projectKey issueType : String)
    (metaRes : Except String CreateMeta)
    (searchRes : Except String SearchPayload)
    (probeRes : String → Except String ProbeIssue) : Option String :=
  match findSPFCore projectKey issueType metaRes searchRes probeRes with
  | .ok r => r
  | .error _ => none

structure UpdateRequest where
  issueKey : String
  fieldId : String
  value : Int
deriving DecidableEq

def spNotFoundMsg (projectKey : String) : String :=
  "Story points field not found for project " ++ projectKey ++
    ". Please check if story points are configured for this project and issue type."

/-- `issueKey.split('-')[0]`: the characters before the first hyphen (the
whole key when it has no hyphen). -/
def projectKeyOf (issueKey : String) : String :=
  String.mk (issueKey.data.takeWhile (fun c => c != '-'))

/-- `updateStoryPoints` (lines 699–719): derive the project key from the
issue key, discover the field, fail hard when discovery yields `null`,
otherwise issue the single-field update (modelled as the returned
request). -/
def updateStoryPoints (issueKey : String) (storyPoints : Int)
    (metaRes : Except String CreateMeta)
    (searchRes : Except String SearchPayload)
    (probeRes : String → Except String ProbeIssue) :
    Except String UpdateRequest :=
  let projectKey := projectKeyOf issueKey
  match findStoryPointsField projectKey "Story" metaRes searchRes probeRes with
  | none => .error (spNotFoundMsg projectKey)
  | some fid => .ok { issueKey := issueKey, fieldId := fid, value := storyPoints }

/-! Specification-side rendering of the discovery heuristic (C8), written
with `List.find?` after the claim's words: first matching metadata field,
else first shortlist identifier present in the probe record's field-name
map whose resolved name contains both substrings, else `none`. -/
def probeMatches (names : List (String × String)) (fieldId : String) : Bool :=
  match names.lookup fieldId with
  | some nm =>
    nm != "" && (strContains nm.toLower "story" && strContains nm.toLower "point")
  | none => false

def specScanMeta (issueType : String) (createMeta : CreateMeta) : Option String :=
  match createMeta.projects with
  | some (project :: _) =>
    ((project.issuetypes.getD []).find?
        (fun it2 => it2.name.toLower == issueType.toLower)).bind
      (fun st => st.fields.bind
        (fun flds => (flds.find? metaFieldMatches).map Prod.fst))
  | _ => none

def specDiscovery (issueType : String) (meta : CreateMeta)
    (search : SearchPayload) (probe : String → ProbeIssue) : Option String :=
  match specScanMeta issueType meta with
  | some fid => some fid
  | none =>
    match (searchIssuesClean search).issues with
    | [] => none
    | first :: _ =>
      (probe first.key).names.bind
        (fun ns => commonStoryPointsFields.find? (probeMatches ns))

def c10Meta : CreateMeta := {}

def c10Search : SearchPayload := { total := 0, issues := [] }

theorem mem_dedupFirst {a : String} {ks : List String} :
    a ∈ dedupFirst ks ↔ a ∈ ks := by
  induction ks with
  | nil => simp [dedupFirst]
  | cons k rest ih =>
    by_cases hak : a = k
    · simp [dedupFirst, hak]
    · simp [dedupFirst, List.mem_filter, bne_iff_ne, hak, ih]

theorem nodup_dedupFirst (ks : List String) : (dedupFirst ks).Nodup := by
  induction ks with
  | nil => exact List.nodup_nil
  | cons k rest ih =>
    refine List.nodup_cons.2 ⟨?_, ih.filter _⟩
    intro hmem
    have := (List.mem_filter.1 hmem).2
    simp [bne_iff_ne] at this

theorem dedupFirst_concat (ks : List String) (k : String) :
    dedupFirst (ks ++ [k])
      = if k ∈ ks then dedupFirst ks else dedupFirst ks ++ [k] := by
  induction ks with
  | nil => simp [dedupFirst]
  | cons a t ih =>
    by_cases hk : k ∈ a :: t
    · rcases List.mem_cons.1 hk with hka | hkt
      · subst hka
        by_cases hkt : k ∈ t
        · simp [dedupFirst, ih, hkt]
        · simp [dedupFirst, ih, hkt, List.filter_append]
      · simp [dedupFirst, ih, hkt, List.mem_cons]
    · have hka : ¬ k = a := fun h => hk (h ▸ List.mem_cons_self _ _)
      have hkt : ¬ k ∈ t := fun h => hk (List.mem_cons_of_mem _ h)
      simp [dedupFirst, ih, hkt, hka, List.filter_append,
        bne_iff_ne, Ne.symm hka]

theorem lastWithKey_concat (k : String) (L : List RelatedIssue)
    (m : RelatedIssue) :
    lastWithKey k (L ++ [m])
      = if m.key = k then some m else lastWithKey k L := by
  by_cases h : m.key = k
  · simp [lastWithKey, List.filter_append, h]
  · simp [lastWithKey, List.filter_append, h]

theorem jsMapDedup_concat (L : List RelatedIssue) (m : RelatedIssue) :
    jsMapDedup (L ++ [m]) = insertMap (jsMapDedup L) m := by
  simp [jsMapDedup, List.foldl_append]

theorem keys_map_replace (acc : List RelatedIssue) (m : RelatedIssue) :
    (acc.map (fun x => if x.key == m.key then m else x)).map RelatedIssue.key
      = acc.map RelatedIssue.key := by
  induction acc with
  | nil => rfl
  | cons a t ih =>
    simp only [List.map_cons, ih]
    by_cases h : a.key = m.key
    · simp [h]
    · simp [h]

/-- Behaviour of the JavaScript `Map`-based deduplication: keys are
pairwise distinct, appear at the position of their first occurrence, and
each surviving entry is the last raw mention carrying its key. -/
theorem jsMapDedup_spec (L : List RelatedIssue) :
    ((jsMapDedup L).map RelatedIssue.key).Nodup ∧
    (jsMapDedup L).map RelatedIssue.key
      = dedupFirst (L.map RelatedIssue.key) ∧
    ∀ m ∈ jsMapDedup L, lastWithKey m.key L = some m := by
  induction L using List.reverseRecOn with
  | nil => simp [jsMapDedup, dedupFirst]
  | append_singleton L m ih =>
    obtain ⟨hnd, hkeys, hval⟩ := ih
    rw [jsMapDedup_concat]
    by_cases hmem : m.key ∈ (jsMapDedup L).map RelatedIssue.key
    · have hany : (jsMapDedup L).any (fun x => x.key == m.key) = true := by
        rcases List.mem_map.1 hmem with ⟨x, hx, hxk⟩
        exact List.any_eq_true.2 ⟨x, hx, by simp [hxk]⟩
      have hrepl : insertMap (jsMapDedup L) m
          = (jsMapDedup L).map (fun x => if x.key == m.key then m else x) := by
        simp [insertMap, hany]
      have hkeyL : m.key ∈ L.map RelatedIssue.key := by
        have := hkeys ▸ hmem
        exact mem_dedupFirst.1 this
      refine ⟨?_, ?_, ?_⟩
      · rw [hrepl, keys_map_replace]; exact hnd
      · rw [hrepl, keys_map_replace, hkeys]
        simp [List.map_append, dedupFirst_concat, hkeyL]
      · intro x hx
        rw [hrepl] at hx
        rcases List.mem_map.1 hx with ⟨y, hy, hyx⟩
        by_cases hyk : y.key = m.key
        · have hxm : x = m := by simpa [hyk] using hyx.symm
          subst hxm
          simp [lastWithKey_concat]
        · have hxy : x = y := by simpa [hyk] using hyx.symm
          subst hxy
          rw [lastWithKey_concat, if_neg (fun hc => hyk hc.symm)]
          exact hval x hy
    · have hany : (jsMapDedup L).any (fun x => x.key == m.key) = false := by
        rw [List.any_eq_false]
        intro x hx
        simp only [beq_iff_eq]
        intro hxk
        exact hmem (List.mem_map.2 ⟨x, hx, hxk⟩)
      have happ : insertMap (jsMapDedup L) m = jsMapDedup L ++ [m] := by
        simp [insertMap, hany]
      have hkeyL : ¬ m.key ∈ L.map RelatedIssue.key := fun h =>
        hmem (hkeys ▸ mem_dedupFirst.2 h)
      refine ⟨?_, ?_, ?_⟩
      · rw [happ, List.map_append]
        refine List.nodup_append.2 ⟨hnd, List.nodup_singleton _, ?_⟩
        intro a ha hb
        simp only [List.map_cons, List.map_nil, List.mem_singleton] at hb
        exact hmem (hb ▸ ha)
      · rw [happ, List.map_append, hkeys]
        simp [List.map_append, dedupFirst_concat, hkeyL]
      · intro x hx
        rw [happ] at hx
        rcases List.mem_append.1 hx with hxl | hxm
        · have hxk : ¬ x.key = m.key := fun h =>
            hmem (List.mem_map.2 ⟨x, hxl, h⟩)
          rw [lastWithKey_concat, if_neg (fun hc => hxk hc.symm)]
          exact hval x hxl
        · have hxm' : x = m := by simpa using hxm
          subst hxm'
          simp [lastWithKey_concat]

/-- C1: for every rich-document node list and provenance tag,
`extractIssueMentions` returns each identifier exactly once; the entry for
an identifier sits at the position of the identifier's first occurrence in
traversal order of the raw walk (`processNodes`), and it equals the
last-encountered raw mention with that identifier (hence carries the last
occurrence's kind/source/commentId fields). -/
theorem extractIssueMentions_dedup (content : List Node) (source : String)
    (commentId : Option String) :
    ((extractIssueMentions content source commentId).map RelatedIssue.key).Nodup ∧
    (extractIssueMentions content source commentId).map RelatedIssue.key
      = dedupFirst ((processNodes source commentId content).map RelatedIssue.key) ∧
    ∀ m ∈ extractIssueMentions content source commentId,
      lastWithKey m.key (processNodes source commentId content) = some m :=
  jsMapDedup_spec (processNodes source commentId content)

/-- Witness for C1 at a concrete document whose text repeats `AB-1`. -/
theorem extractIssueMentions_dedup_witness :
    ((extractIssueMentions c1Content "comment" (some "9")).map RelatedIssue.key).Nodup ∧
    (extractIssueMentions c1Content "comment" (some "9")).map RelatedIssue.key
      = ["AB-1", "CD-2"] ∧
    lastWithKey "AB-1" (processNodes "comment" (some "9") c1Content)
      = some (mkMention "AB-1" "comment" (some "9")) := by
  have h := extractIssueMentions_dedup c1Content "comment" (some "9")
  refine ⟨h.1, by decide, ?_⟩
  have hm := h.2.2 (mkMention "AB-1" "comment" (some "9")) (by decide)
  simpa using hm

theorem concatAll_append (a b : List String) :
    concatAll (a ++ b) = concatAll a ++ concatAll b := by
  induction a with
  | nil => simp [concatAll]
  | cons s t ih => simp [concatAll, ih, String.append_assoc]

mutual

theorem extractTextContent_eq_leaves :
    (l : List Node) → extractTextContent l = concatAll (textLeaves l)
  | [] => rfl
  | n :: rest => by
    rw [extractTextContent, textLeaves, concatAll_append,
      nodeText_eq_leaves n, extractTextContent_eq_leaves rest]

theorem nodeText_eq_leaves :
    (n : Node) → nodeText n = concatAll (nodeLeaves n)
  | .mk ty tx attrs ct => by
    rw [nodeText.eq_def, nodeLeaves.eq_def]
    by_cases hty : ty = some "text"
    · simp [hty, concatAll]
    · simp only [beq_iff_eq, hty, if_false]
      cases ct with
      | some cs => exact extractTextContent_eq_leaves cs
      | none => rfl

end

theorem inlineCardMentionsD_ok (source : String) (commentId : Option String)
    (ty : Option String) (url : Option JSPrim) (h : wfPrimField url = true) :
    ∃ v, inlineCardMentionsD source commentId ty url = .ok v := by
  unfold inlineCardMentionsD
  by_cases hty : (ty == some "inlineCard") = true
  · simp only [hty, if_true]
    match url, h with
    | none, _ => exact ⟨[], rfl⟩
    | some (.jsStr su), _ =>
      by_cases htr : primTruthy (.jsStr su) = true
      · simp [htr]
      · simp [htr]
    | some .jsNull, h => simp [primTruthy]
    | some .jsUndef, h => simp [primTruthy]
    | some (.jsNum n), h =>
      have : primTruthy (.jsNum n) = false := by
        simpa [wfPrimField] using h
      simp [this]
    | some (.jsBool b), h =>
      have : primTruthy (.jsBool b) = false := by
        simpa [wfPrimField] using h
      simp [this]
  · simp only [hty, if_false]
    exact ⟨[], rfl⟩

theorem textMentionsD_ok (source : String) (commentId : Option String)
    (ty : Option String) (tx : Option JSPrim) (h : wfPrimField tx = true) :
    ∃ v, textMentionsD source commentId ty tx = .ok v := by
  unfold textMentionsD
  by_cases hty : (ty == some "text") = true
  · simp only [hty, if_true]
    match tx, h with
    | none, _ => exact ⟨[], rfl⟩
    | some (.jsStr st), _ =>
      by_cases htr : primTruthy (.jsStr st) = true
      · simp [htr]
      · simp [htr]
    | some .jsNull, h => simp [primTruthy]
    | some .jsUndef, h => simp [primTruthy]
    | some (.jsNum n), h =>
      have : primTruthy (.jsNum n) = false := by
        simpa [wfPrimField] using h
      simp [this]
    | some (.jsBool b), h =>
      have : primTruthy (.jsBool b) = false := by
        simpa [wfPrimField] using h
      simp [this]
  · simp only [hty, if_false]
    exact ⟨[], rfl⟩

mutual

theorem textListD_ok :
    (l : List DNode) → wfList l = true → ∃ s, textListD l = .ok s
  | [], _ => ⟨"", rfl⟩
  | n :: rest, h => by
    have h' : wfNode n = true ∧ wfList rest = true := by
      simpa [wfList, Bool.and_eq_true] using h
    obtain ⟨s, hs⟩ := textNodeD_ok n h'.1
    obtain ⟨t, ht⟩ := textListD_ok rest h'.2
    exact ⟨s ++ t, by simp only [textListD, hs, ht]; rfl⟩

theorem textNodeD_ok :
    (n : DNode) → wfNode n = true → ∃ s, textNodeD n = .ok s
  | .node ty tx url ct, h => by
    rw [textNodeD.eq_def]
    by_cases hty : (ty == some "text") = true
    · simp [hty]
    · simp only [hty, Bool.false_eq_true, if_false]
      match ct, h with
      | none, _ => exact ⟨"", rfl⟩
      | some (.arr es), h =>
        have hwf : wfList es = true := by
          simp only [wfNode, Bool.and_eq_true] at h
          exact h.2
        obtain ⟨s, hs⟩ := textListD_ok es hwf
        exact ⟨s, by simp [dcTruthy, extractTextContentD, hs]⟩
      | some (.nonArr t), h =>
        have hf : t = false := by
          simp only [wfNode, Bool.and_eq_true] at h
          simpa using h.2
        subst hf
        exact ⟨"", by simp [dcTruthy]⟩

end

mutual

theorem mentionListD_ok :
    (source : String) → (commentId : Option String) → (l : List DNode) →
      wfList l = true → ∃ v, mentionListD source commentId l = .ok v
  | _, _, [], _ => ⟨[], rfl⟩
  | s, cid, n :: rest, h => by
    have h' : wfNode n = true ∧ wfList rest = true := by
      simpa [wfList, Bool.and_eq_true] using h
    obtain ⟨a, ha⟩ := mentionNodeD_ok s cid n h'.1
    obtain ⟨b, hb⟩ := mentionListD_ok s cid rest h'.2
    exact ⟨a ++ b, by simp only [mentionListD, ha, hb]; rfl⟩

theorem mentionNodeD_ok :
    (source : String) → (commentId : Option String) → (n : DNode) →
      wfNode n = true → ∃ v, mentionNodeD source commentId n = .ok v
  | s, cid, .node ty tx url ct, h => by
    match ct, h with
    | none, h =>
      have hw : wfPrimField tx = true ∧ wfPrimField url = true := by
        simpa [wfNode, Bool.and_eq_true] using h
      obtain ⟨v1, h1⟩ := inlineCardMentionsD_ok s cid ty url hw.2
      obtain ⟨v2, h2⟩ := textMentionsD_ok s cid ty tx hw.1
      exact ⟨v1 ++ v2 ++ [], by simp only [mentionNodeD, h1, h2]; rfl⟩
    | some (.arr es), h =>
      have hw : (wfPrimField tx = true ∧ wfPrimField url = true) ∧
          wfList es = true := by
        simpa [wfNode, Bool.and_eq_true] using h
      obtain ⟨v1, h1⟩ := inlineCardMentionsD_ok s cid ty url hw.1.2
      obtain ⟨v2, h2⟩ := textMentionsD_ok s cid ty tx hw.1.1
      obtain ⟨v3, h3⟩ := mentionListD_ok s cid es hw.2
      exact ⟨v1 ++ v2 ++ v3,
        by simp only [mentionNodeD, h1, h2, dcTruthy, if_true, h3]; rfl⟩
    | some (.nonArr t), h =>
      have hw : (wfPrimField tx = true ∧ wfPrimField url = true) ∧
          t = false := by
        simpa [wfNode, Bool.and_eq_true] using h
      obtain ⟨v1, h1⟩ := inlineCardMentionsD_ok s cid ty url hw.1.2
      obtain ⟨v2, h2⟩ := textMentionsD_ok s cid ty tx hw.1.1
      rw [hw.2]
      exact ⟨v1 ++ v2 ++ [],
        by simp only [mentionNodeD, h1, h2, dcTruthy, Bool.false_eq_true,
          if_false]; rfl⟩

end

/-- C4: for every rich-document node list, the Document Text Extractor
returns exactly the no-separator concatenation, in depth-first document
order, of the `text` payloads of all text leaves (non-text, non-container
nodes contribute nothing), and non-array input yields the empty string. -/
theorem extractTextContent_spec :
    (∀ content : List Node,
        extractTextContent content = concatAll (textLeaves content)) ∧
    (∀ t : Bool, extractTextContentD (.nonArr t) = .ok "") :=
  ⟨extractTextContent_eq_leaves, fun _ => rfl⟩

/-- C5 counterexample: the claim says neither extractor ever raises on
malformed input, but a `null` document node makes both extractors throw a
`TypeError` (`node.type` access on `null`), and a non-array value passed to
the Mention Extractor throws at `content.forEach`. -/
theorem extractors_raise_on_degenerate_input :
    extractTextContentD (.arr [.bad]) = .error () ∧
    extractIssueMentionsD (.arr [.bad]) "description" none = .error () ∧
    extractIssueMentionsD (.nonArr true) "description" none = .error () :=
  ⟨rfl, rfl, rfl⟩

/-- C5 (amended): on any well-formed node list (every node an object,
truthy `text`/`url` values strings, truthy `content` values arrays)
neither extractor raises, and a non-array input still degrades to the
empty string in the Text Extractor; but degenerate nodes can raise, as the
counterexample shows. -/
theorem extractors_wf_no_raise (es : List DNode) (source : String)
    (commentId : Option String) (h : wfList es = true) :
    (∃ s, extractTextContentD (.arr es) = .ok s) ∧
    (∃ ms, extractIssueMentionsD (.arr es) source commentId = .ok ms) ∧
    (∀ t, extractTextContentD (.nonArr t) = .ok "") := by
  obtain ⟨s, hs⟩ := textListD_ok es h
  obtain ⟨ms, hms⟩ := mentionListD_ok source commentId es h
  refine ⟨⟨s, by simpa [extractTextContentD] using hs⟩,
    ⟨jsMapDedup ms, by simp [extractIssueMentionsD, hms]⟩, fun _ => rfl⟩

/-- Witness for the amended C5 at a concrete well-formed document. -/
theorem extractors_wf_no_raise_witness :
    wfList c5Nodes = true ∧
    (∃ s, extractTextContentD (.arr c5Nodes) = .ok s) ∧
    (∃ ms, extractIssueMentionsD (.arr c5Nodes) "comment" (some "3") = .ok ms) :=
  ⟨rfl,
    (extractors_wf_no_raise c5Nodes "comment" (some "3") rfl).1,
    (extractors_wf_no_raise c5Nodes "comment" (some "3") rfl).2.1⟩

/-- C3: for every raw issue payload, `cleanIssue` builds `relatedIssues` as
the deduplicated narrative mentions followed by one `"link"` entry per
structured issue link in payload order, each with source `"description"`,
links appended regardless of whether narrative mentions existed; for
narrative mentions AA-1, BB-2 and a structured link to CC-3 the list is
exactly those three entries in that order. -/
theorem cleanIssue_relationships (issue : Issue) :
    ((cleanIssue issue).relatedIssues =
      (match descContent issue with
       | some c => extractIssueMentions c "description"
       | none => []) ++
      ((issue.fields.bind IssueFields.issuelinks).getD []).map linkEntry) ∧
    (∀ link, (linkEntry link).type = "link" ∧
      (linkEntry link).source = "description") ∧
    (cleanIssue c3Issue).relatedIssues =
      [mkMention "AA-1" "description" none,
       mkMention "BB-2" "description" none,
       { key := "CC-3", type := "link", source := "description",
         relationship := some "blocks" }] := by
  refine ⟨?_, ?_, by decide⟩
  · rcases hd : descContent issue with _ | c <;>
    rcases hsp : issue.fields.bind IssueFields.customfield_10016 with _ | sp <;>
    rcases hl : issue.fields.bind IssueFields.issuelinks with _ | links <;>
    rcases hp : issue.fields.bind IssueFields.parent with _ | p <;>
    rcases he : issue.fields.bind IssueFields.customfield_10014 with _ | v <;>
    rcases hst : issue.fields.bind IssueFields.subtasks with _ | sts <;>
    simp only [cleanIssue, hd, hsp, hl, hp, he, hst] <;>
    (try split_ifs) <;>
    simp_all [Nat.pos_iff_ne_zero, List.length_eq_zero]
  · intro link
    unfold linkEntry
    dsimp only
    repeat' split
    all_goals exact ⟨rfl, rfl⟩

theorem promiseAll_ok {α β : Type} (l : List α) (f : α → β) :
    promiseAll l (fun a => (Except.ok (f a) : Except String β)) = .ok (l.map f) := by
  induction l with
  | nil => rfl
  | cons a rest ih => simp only [promiseAll, ih]; rfl

/-- C2: both aggregates produce a relationship list equal to the record's
own normalized list followed by the concatenation, in comment order, of
each comment's mention list, with no deduplication at the merge. -/
theorem aggregate_merge_append (issueId : String) (d : Issue)
    (c : CommentsPayload) (epicFetch : String → Except String EpicPayload)
    (search : SearchPayload) (cf : String → CommentsPayload) :
    (∃ r, getIssueWithComments issueId (.ok d) (.ok c) epicFetch = .ok r ∧
        r.relatedIssues = (cleanIssue d).relatedIssues ++
          ((c.comments.map cleanComment).map CleanComment.mentions).flatten) ∧
    (∃ lst, getEpicChildren (.ok search) (fun k => .ok (cf k)) = .ok lst ∧
        lst.map CleanJiraIssue.relatedIssues = search.issues.map (fun iss =>
          (cleanIssue iss).relatedIssues ++
            (((cf iss.key).comments.map cleanComment).map
              CleanComment.mentions).flatten)) := by
  constructor
  · rcases hep : (assembleIssue d c).epicLink with _ | el
    · exact ⟨assembleIssue d c, by simp [getIssueWithComments, hep],
        by simp [assembleIssue]⟩
    · rcases hef : epicFetch el.key with e | ed
      · exact ⟨assembleIssue d c, by simp [getIssueWithComments, hep, hef],
          by simp [assembleIssue]⟩
      · refine ⟨{ assembleIssue d c with epicLink := some { el with summary := ed.fields.bind LinkedIssueFields.summary } }, ?_, ?_⟩
        · simp [getIssueWithComments, hep, hef]
        · simp [assembleIssue]
  · refine ⟨search.issues.map (fun iss => assembleIssue iss (cf iss.key)), ?_, ?_⟩
    · show (do
        let data ← (Except.ok search : Except String SearchPayload)
        promiseAll data.issues (fun issue => do
          let commentsData ← Except.ok (cf issue.key)
          pure (assembleIssue issue commentsData))) = _
      exact promiseAll_ok search.issues (fun iss => assembleIssue iss (cf iss.key))
    · simp [assembleIssue, List.map_map]

/-- `cleanIssue` leaves `epicLink.summary` unset (the summary is only
filled in by the aggregate's follow-up fetch). -/
theorem cleanIssue_epicLink_summary (issue : Issue) :
    ∀ el, (cleanIssue issue).epicLink = some el → el.summary = none := by
  rcases hd : descContent issue with _ | c <;>
  rcases hsp : issue.fields.bind IssueFields.customfield_10016 with _ | sp <;>
  rcases hl : issue.fields.bind IssueFields.issuelinks with _ | links <;>
  rcases hp : issue.fields.bind IssueFields.parent with _ | p <;>
  rcases he : issue.fields.bind IssueFields.customfield_10014 with _ | v <;>
  rcases hst : issue.fields.bind IssueFields.subtasks with _ | sts <;>
  simp only [cleanIssue, hd, hsp, hl, hp, he, hst] <;>
  (try split_ifs) <;>
  simp_all

/-- C7: when the record carries an `epicLink` and the best-effort epic
summary follow-up fails, `getIssueWithComments` still returns the record
exactly as assembled, with `epicLink.summary` unset; the failure is never
propagated. -/
theorem epic_followup_failure_swallowed (issueId : String) (d : Issue)
    (c : CommentsPayload) (e : String) :
    getIssueWithComments issueId (.ok d) (.ok c) (fun _ => .error e)
      = .ok (assembleIssue d c) ∧
    (assembleIssue d c).epicLink = (cleanIssue d).epicLink ∧
    ∀ el, (assembleIssue d c).epicLink = some el → el.summary = none := by
  have heq : (assembleIssue d c).epicLink = (cleanIssue d).epicLink := by
    simp [assembleIssue]
  refine ⟨?_, heq, ?_⟩
  · rcases hep : (assembleIssue d c).epicLink with _ | el <;>
      simp [getIssueWithComments, hep]
  · intro el hel
    exact cleanIssue_epicLink_summary d el (heq ▸ hel)

/-- Witness for C7 at a concrete record carrying an epic link. -/
theorem epic_followup_failure_swallowed_witness :
    getIssueWithComments "K-7" (.ok c7Issue) (.ok c7Comments)
        (fun _ => .error "boom") = .ok (assembleIssue c7Issue c7Comments) ∧
    ({ id := "EP-9", key := "EP-9" } : EpicLink).summary = none := by
  have h := epic_followup_failure_swallowed "K-7" c7Issue c7Comments "boom"
  exact ⟨h.1, h.2.2 { id := "EP-9", key := "EP-9" } (by decide)⟩

theorem startsWithChars_append (s t : List Char) :
    startsWithChars s (s ++ t) = true := by
  induction s with
  | nil => simp [startsWithChars]
  | cons c cs ih => simp [startsWithChars, ih]

theorem containsAux_self (sub t : List Char) :
    containsAux sub (sub ++ t) = true := by
  cases sub with
  | nil => cases t <;> simp [containsAux, startsWithChars]
  | cons s ss => simp [containsAux, startsWithChars, startsWithChars_append]

theorem containsAux_append_left (sub x m : List Char)
    (h : containsAux sub m = true) : containsAux sub (x ++ m) = true := by
  induction x with
  | nil => simpa using h
  | cons c xs ih => simp [containsAux, ih]

/-- A `404` transport failure always carries the `(Status: 404)` marker the
aggregate's catch block greps for. -/
theorem contains404_handleFetchError (r : HttpResponse) (hok : r.ok = false)
    (hst : r.status = 404) :
    strContains (handleFetchError r) st404 = true := by
  unfold handleFetchError
  rw [hok, hst]
  dsimp only
  generalize (if messageOf r = "" then "" else ": " ++ messageOf r) = em
  generalize detailsStr r.body = det
  have hcat : categoryOf 404 = " [NOT_FOUND_ERROR]" := by decide
  have h404 : toString (404 : Nat) = "404" := by decide
  rw [hcat, h404]
  unfold strContains
  simp only [Bool.not_false, eq_self_iff_true, if_true,
    String.data_append, List.append_assoc]
  refine containsAux_append_left _ _ _ ?_
  refine containsAux_append_left _ _ _ ?_
  refine containsAux_append_left _ _ _ ?_
  have hsplit : " (Status: ".data ++ ("404".data ++ (")\nDetails: ".data ++ det.data))
      = ' ' :: (st404.data ++ ("\nDetails: ".data ++ det.data)) := by
    have h1 : " (Status: ".data = ' ' :: "(Status: ".data := by decide
    have h2 : ")\nDetails: ".data = [')'] ++ "\nDetails: ".data := by decide
    have h3 : st404.data = "(Status: ".data ++ ("404".data ++ [')']) := by decide
    rw [h1, h2, h3]
    simp [List.append_assoc]
  rw [hsplit]
  exact containsAux_append_left _ [' '] _ (containsAux_self _ _)

/-- C6 counterexample: the claim says only a not-found status on the
*record* fetch is translated and every other sub-fetch failure is
propagated unchanged, but a 404 transport failure of the *comments* fetch
is also translated into `Issue not found: <id>` instead of being
propagated. -/
theorem comments404_also_translated :
    getIssueWithComments "KEY-1" (.ok c6Issue)
        (.error (handleFetchError c6Resp)) (fun _ => .error "x")
      = .error ("Issue not found: KEY-1") ∧
    handleFetchError c6Resp ≠ "Issue not found: KEY-1" := by
  constructor
  · have hc : strContains (handleFetchError c6Resp) st404 = true := by decide
    simp [getIssueWithComments, translate404, hc]
  · decide

/-- C6 (amended): a sub-fetch failure whose message carries the 404 status
marker — whether it came from the record fetch or the comments fetch — is
reported as `Issue not found: <id>`, never as the raw transport error; a
sub-fetch failure without the marker is propagated unchanged. -/
theorem notFound_translation (issueId : String) (resp : HttpResponse)
    (commentsRes : Except String CommentsPayload) (d : Issue) (e : String)
    (epicFetch : String → Except String EpicPayload) :
    (resp.ok = false → resp.status = 404 →
      getIssueWithComments issueId (.error (handleFetchError resp))
          commentsRes epicFetch
        = .error ("Issue not found: " ++ issueId)) ∧
    (strContains e st404 = true →
      getIssueWithComments issueId (.ok d) (.error e) epicFetch
        = .error ("Issue not found: " ++ issueId)) ∧
    (strContains e st404 = false →
      getIssueWithComments issueId (.error e) commentsRes epicFetch
        = .error e) ∧
    (strContains e st404 = false →
      getIssueWithComments issueId (.ok d) (.error e) epicFetch
        = .error e) := by
  refine ⟨?_, ?_, ?_, ?_⟩
  · intro hok hst
    have hc := contains404_handleFetchError resp hok hst
    simp [getIssueWithComments, translate404, hc]
  · intro hc
    simp [getIssueWithComments, translate404, hc]
  · intro hc
    simp [getIssueWithComments, translate404, hc]
  · intro hc
    simp [getIssueWithComments, translate404, hc]

/-- Witness for the amended C6 at a concrete 404 response and a concrete
marker-free failure. -/
theorem notFound_translation_witness :
    getIssueWithComments "KEY-1" (.error (handleFetchError c6Resp))
        (.error "z") (fun _ => .error "x")
      = .error ("Issue not found: " ++ "KEY-1") ∧
    getIssueWithComments "KEY-1" (.error "boom") (.error "z")
        (fun _ => .error "x")
      = .error "boom" := by
  have h := notFound_translation "KEY-1" c6Resp (.error "z") c6Issue "boom"
    (fun _ => .error "x")
  exact ⟨h.1 rfl rfl, h.2.2.1 (by decide)⟩

theorem scanFieldList_eq_find (l : List (String × MetaField)) :
    scanFieldList l = (l.find? metaFieldMatches).map Prod.fst := by
  induction l with
  | nil => rfl
  | cons p rest ih =>
    by_cases h : metaFieldMatches p = true
    · simp [scanFieldList, List.find?_cons, h]
    · simp only [Bool.not_eq_true] at h
      simp [scanFieldList, List.find?_cons, h, ih]

theorem probeFieldLoop_eq_find (ns : List (String × String)) (l : List String) :
    probeFieldLoop ns l = l.find? (probeMatches ns) := by
  induction l with
  | nil => rfl
  | cons fid rest ih =>
    rcases hlk : ns.lookup fid with _ | nm
    · have hm : probeMatches ns fid = false := by simp [probeMatches, hlk]
      simp [probeFieldLoop, hlk, List.find?_cons, hm, ih]
    · by_cases hnil : nm = ""
      · subst hnil
        have hm : probeMatches ns fid = false := by simp [probeMatches, hlk]
        simp [probeFieldLoop, hlk, List.find?_cons, hm, ih]
      · by_cases hc : (strContains nm.toLower "story" &&
            strContains nm.toLower "point") = true
        · have hm : probeMatches ns fid = true := by
            simp [probeMatches, hlk, hnil, hc]
          simp [probeFieldLoop, hlk, hnil, hc, List.find?_cons, hm]
        · simp only [Bool.not_eq_true] at hc
          have hm : probeMatches ns fid = false := by
            simp [probeMatches, hlk, hc]
          simp [probeFieldLoop, hlk, hnil, hc, List.find?_cons, hm, ih]

theorem scanMetaFields_eq_spec (issueType : String) (meta : CreateMeta) :
    scanMetaFields issueType meta = specScanMeta issueType meta := by
  unfold scanMetaFields specScanMeta
  rcases meta.projects with _ | ⟨_ | ⟨project, rest⟩⟩
  · rfl
  · rfl
  · dsimp only
    rcases hf : List.find? (fun it2 => it2.name.toLower == issueType.toLower)
        (project.issuetypes.getD []) with _ | st <;> try rw [hf]
    · rfl
    · dsimp only [Option.some_bind]
      rcases hfl : st.fields with _ | flds <;> try rw [hfl]
      all_goals simp [scanFieldList_eq_find]

/-- C8: with successful collaborators, `findStoryPointsField` implements
exactly the two-step heuristic the claim states — first matching
creation-metadata field of the matching issue type, else the first
shortlist identifier whose resolved probe-record name contains both
"story" and "point", else a non-exceptional `none`. -/
theorem findStoryPointsField_spec (pk it : String) (meta : CreateMeta)
    (search : SearchPayload) (probe : String → ProbeIssue) :
    findStoryPointsField pk it (.ok meta) (.ok search) (fun k => .ok (probe k))
      = specDiscovery it meta search probe := by
  unfold findStoryPointsField findSPFCore specDiscovery
  rw [← scanMetaFields_eq_spec]
  show (match (match scanMetaFields it meta with
    | some fid => (pure (some fid) : Except String (Option String))
    | none =>
      match (searchIssuesClean search).issues with
      | [] => pure none
      | first :: _ => do
        let fullIssue ← Except.ok (probe first.key)
        pure (probeFields fullIssue.names)) with
    | Except.ok r => r
    | Except.error _ => none) = _
  rcases scanMetaFields it meta with _ | fid
  · dsimp only
    rcases hiss : (searchIssuesClean search).issues with _ | ⟨first, rest⟩ <;>
      try rw [hiss]
    · rfl
    · show probeFields (probe first.key).names
        = (probe first.key).names.bind
            (fun ns => commonStoryPointsFields.find? (probeMatches ns))
      rcases (probe first.key).names with _ | ns
      · rfl
      · simp [probeFields, probeFieldLoop_eq_find]
  · rfl

/-- C9: when field discovery for the key's project yields "not found",
`updateStoryPoints` fails with an error naming the project, and no update
request is issued. -/
theorem updateStoryPoints_fails_hard (issueKey : String) (sp : Int)
    (pk : String) (metaRes : Except String CreateMeta)
    (searchRes : Except String SearchPayload)
    (probeRes : String → Except String ProbeIssue)
    (hpk : projectKeyOf issueKey = pk)
    (hnone : findStoryPointsField pk "Story" metaRes searchRes probeRes = none) :
    updateStoryPoints issueKey sp metaRes searchRes probeRes
        = .error (spNotFoundMsg pk) ∧
    strContains (spNotFoundMsg pk) pk = true ∧
    ∀ req, updateStoryPoints issueKey sp metaRes searchRes probeRes ≠ .ok req := by
  have hupd : updateStoryPoints issueKey sp metaRes searchRes probeRes
      = .error (spNotFoundMsg pk) := by
    unfold updateStoryPoints
    rw [hpk]
    dsimp only
    rw [hnone]
  refine ⟨hupd, ?_, ?_⟩
  · unfold spNotFoundMsg strContains
    simp only [String.data_append, List.append_assoc]
    exact containsAux_append_left _ _ _ (containsAux_self _ _)
  · intro req h
    rw [hupd] at h
    exact Except.noConfusion h

/-- Witness for C9: all three collaborators down, so discovery yields
`none` and the update fails hard naming the project `ACI`. -/
theorem updateStoryPoints_fails_hard_witness :
    updateStoryPoints "ACI-11" 5 (.error "down") (.error "down")
        (fun _ => .error "down") = .error (spNotFoundMsg "ACI") ∧
    strContains (spNotFoundMsg "ACI") "ACI" = true := by
  have h := updateStoryPoints_fails_hard "ACI-11" 5 "ACI" (.error "down")
    (.error "down") (fun _ => .error "down") (by decide) rfl
  exact ⟨h.1, h.2.1⟩

/-- C10: `findStoryPointsField` never throws: a transport failure of the
metadata query, of the probe search, or of the probe record fetch is caught
and returned as the same `none` a genuinely unresolvable field yields. -/
theorem findStoryPointsField_never_throws (pk it e1 e2 e3 : String)
    (searchRes : Except String SearchPayload)
    (probeRes : String → Except String ProbeIssue)
    (m : CreateMeta) (spl : SearchPayload) :
    findStoryPointsField pk it (.error e1) searchRes probeRes = none ∧
    (scanMetaFields it m = none →
      findStoryPointsField pk it (.ok m) (.error e2) probeRes = none) ∧
    (scanMetaFields it m = none →
      findStoryPointsField pk it (.ok m) (.ok spl) (fun _ => .error e3) = none) := by
  refine ⟨rfl, ?_, ?_⟩
  · intro hm
    unfold findStoryPointsField findSPFCore
    show (match (match scanMetaFields it m with
        | some fid => (pure (some fid) : Except String (Option String))
        | none => Except.error e2) with
      | Except.ok r => r
      | Except.error _ => none) = none
    rw [hm]
  · intro hm
    unfold findStoryPointsField findSPFCore
    show (match (match scanMetaFields it m with
        | some fid => (pure (some fid) : Except String (Option String))
        | none =>
          match (searchIssuesClean spl).issues with
          | [] => pure none
          | _ :: _ => Except.error e3) with
      | Except.ok r => r
      | Except.error _ => none) = none
    rw [hm]
    rcases hiss : (searchIssuesClean spl).issues with _ | ⟨first, rest⟩ <;>
      try rw [hiss]
    all_goals rfl

/-- Witness for C10 at concrete collaborators: metadata down, search down,
probe down — all three degrade to `none`. -/
theorem findStoryPointsField_never_throws_witness :
    findStoryPointsField "ACI" "Story" (.error "down") (.ok c10Search)
        (fun _ => .error "down") = none ∧
    findStoryPointsField "ACI" "Story" (.ok c10Meta) (.error "down")
        (fun _ => .error "down") = none ∧
    findStoryPointsField "ACI" "Story" (.ok c10Meta) (.ok c10Search)
        (fun _ => .error "down") = none := by
  have h := findStoryPointsField_never_throws "ACI" "Story" "down" "down" "down"
    (.ok c10Search) (fun _ => .error "down") c10Meta c10Search
  exact ⟨h.1, h.2.1 rfl, h.2.2 rfl⟩

end JiraMcp
